import Mathlib

/-!
Verification development for the VibeTrail snapshot engine
(src/src/extension.ts).

The filesystem is modelled as a tree of named entries; directories are
association lists from names to entries, in directory-listing order.
Machine-level aspects (permissions, partial disk failures) are out of
scope: every modelled filesystem call succeeds.  The git backend
(simple-git) is external; it is modelled by an explicit commit list
(newest first) plus the committed tree, and its commit primitive fails
with a message containing "nothing to commit" when the staged tree
equals the head tree, which is the contract the source itself relies on
(saveSnapshot catch block, synchronizeShadowRepo catch block).
-/

/-- Character-list test: pat is an initial segment of s. -/
def leadsWith : List Char → List Char → Bool
  | [], _ => true
  | _ :: _, [] => false
  | a :: as, b :: bs => a == b && leadsWith as bs

/-- Character-list test: pat occurs contiguously inside s. -/
def hasSub (s : List Char) (pat : List Char) : Bool :=
  match s with
  | [] => leadsWith pat []
  | _ :: rest => leadsWith pat s || hasSub rest pat

/-- Model of the JavaScript String.prototype.includes substring test,
used by the source as fileName.includes(pattern). -/
def strIncludes (s pat : String) : Bool := hasSub s.data pat.data

/-- Model of the JavaScript String.prototype.trim, used by the source as
prompt.trim(). -/
def jsTrim (s : String) : String :=
  String.mk (((s.data.dropWhile Char.isWhitespace).reverse.dropWhile Char.isWhitespace).reverse)

/-- Drop the first n characters of a list. -/
def dropN : Nat → List Char → List Char
  | 0, l => l
  | _ + 1, [] => []
  | k + 1, _ :: rest => dropN k rest

/-- Fuel-driven worker for jsSplit; the fuel starts at the length of the
string, which bounds the number of consumed characters. -/
def splitAux (sep : List Char) : Nat → List Char → List Char → List (List Char)
  | _, [], acc => [acc.reverse]
  | 0, s, acc => [acc.reverse ++ s]
  | fuel + 1, c :: rest, acc =>
      if leadsWith sep (c :: rest) then
        acc.reverse :: splitAux sep fuel (dropN (sep.length - 1) rest) []
      else
        splitAux sep fuel rest (c :: acc)

/-- Model of the JavaScript String.prototype.split on a non-empty string
separator, used by the source as commit.message.split(" | Snapshot @ "). -/
def jsSplit (s sep : String) : List String :=
  (splitAux sep.data s.data.length s.data []).map String.mk

/-- A filesystem entry: a file with byte content, or a directory whose
children are an association list from names to entries in listing order. -/
inductive Entry where
  | file (content : String)
  | dir (children : List (String × Entry))

/-- Children of an entry (a file has none). -/
def childrenOf : Entry → List (String × Entry)
  | .file _ => []
  | .dir es => es

/-- First entry with the given name (model of a path component lookup). -/
def lookupE (n : String) : List (String × Entry) → Option Entry
  | [] => none
  | (m, e) :: rest => if m == n then some e else lookupE n rest

/-- Membership of a name among the keys of a listing. -/
def keyMemB (n : String) : List (String × Entry) → Bool
  | [] => false
  | (m, _) :: rest => m == n || keyMemB n rest

/-- Write an entry under a name: overwrite the first entry with that name
in place, or append a new entry at the end of the listing. -/
def setKey : List (String × Entry) → String → Entry → List (String × Entry)
  | [], n, v => [(n, v)]
  | (m, e) :: rest, n, v => if m == n then (n, v) :: rest else (m, e) :: setKey rest n v

/-- Children of an optional destination entry: an existing directory keeps
its children, a missing destination starts empty (mkdirSync -p), and a
file in the way also yields an empty start (that situation is a
filesystem error in the source and is unreachable after the clean step). -/
def destChildren : Option Entry → List (String × Entry)
  | some (.dir es) => es
  | _ => []

/-- Structural equality of entries, including listing order.  This is the
notion of tree equality the modelled git backend uses to detect a
"nothing to commit" situation. -/
def entryBeq : Entry → Entry → Bool
  | .file a, .file b => a == b
  | .dir [], .dir [] => true
  | .dir ((n, x) :: xs), .dir ((m, y) :: ys) =>
      n == m && entryBeq x y && entryBeq (.dir xs) (.dir ys)
  | _, _ => false

/-- Ignore rule set of the engine (src/src/extension.ts lines 379-395;
the identical list appears again at lines 1222-1238 and 1304-1320). -/
def ignorePatterns : List String :=
  ["node_modules", ".git", ".gitignore", ".gitattributes", ".gitmodules",
   ".vscode", "out", "dist", "build", ".DS_Store", "Thumbs.db",
   "venv", "env", ".venv", ".env"]

/-- Directory skip test of copyRecursive: exact membership of the basename
in the rule set (ignorePatterns.includes(dirName), line 420). -/
def isIgnoredDir (n : String) : Bool := ignorePatterns.contains n

/-- File skip test of copyRecursive: substring containment of some rule in
the basename (ignorePatterns.some(p => fileName.includes(p)), line 438). -/
def isIgnoredFile (n : String) : Bool := ignorePatterns.any (fun p => strIncludes n p)

/-- Ignore test of cleanWorkspace (lines 1322-1324): substring containment,
applied to directories and files alike. -/
def shouldIgnore (n : String) : Bool := ignorePatterns.any (fun p => strIncludes n p)

/-- Model of copyRecursive (lines 413-444) fused with the forEach loop
that drives it: each source entry is copied onto the destination listing.
A directory whose basename is exactly an ignore rule is pruned with its
whole subtree; a file whose basename contains an ignore rule as a
substring is skipped; otherwise directories are created or merged and
files are copied byte for byte, overwriting. -/
def copyChildren : List (String × Entry) → List (String × Entry) → List (String × Entry)
  | [], ds => ds
  | (n, .file c) :: rest, ds =>
      copyChildren rest (if isIgnoredFile n then ds else setKey ds n (.file c))
  | (n, .dir cs) :: rest, ds =>
      copyChildren rest
        (if isIgnoredDir n then ds
         else setKey ds n (.dir (copyChildren cs (destChildren (lookupE n ds)))))

/-- Clean step of copyWorkspaceFiles (lines 446-463) and of
synchronizeShadowRepo (lines 1171-1186): delete every entry directly
under the destination except the .git metadata subtree. -/
def cleanExceptGit (es : List (String × Entry)) : List (String × Entry) :=
  es.filter (fun p => p.1 == ".git")

/-- Model of copyWorkspaceFiles (lines 378-472): abort with an error and
an untouched destination when the destination has no .git entry, or when
the git status validation fails (statusOk models the external
tempGit.status() probe); otherwise clean the destination except .git and
copy the source through the ignore filter.  The result is the new
destination tree paired with the error message, if any. -/
def copyWorkspaceFiles (statusOk : Bool) (source dest : Entry) : Entry × Option String :=
  match lookupE ".git" (childrenOf dest) with
  | none => (dest, some "Git directory not found in destination. Aborting to prevent data loss.")
  | some _ =>
      if statusOk then
        (.dir (copyChildren (childrenOf source) (cleanExceptGit (childrenOf dest))), none)
      else
        (dest, some "Git repository is not accessible. Aborting to prevent data loss.")

/-- Model of copyWorkspaceToShadowRepo (lines 1221-1298): the same
recursive ignore-filtered copy, with an explicit skip of a top-level
.git source entry, and no clean step of its own. -/
def copyTopSkipGit : List (String × Entry) → List (String × Entry) → List (String × Entry)
  | [], ds => ds
  | (n, .file c) :: rest, ds =>
      if n == ".git" then copyTopSkipGit rest ds
      else copyTopSkipGit rest (if isIgnoredFile n then ds else setKey ds n (.file c))
  | (n, .dir cs) :: rest, ds =>
      if n == ".git" then copyTopSkipGit rest ds
      else copyTopSkipGit rest
        (if isIgnoredDir n then ds
         else setKey ds n (.dir (copyChildren cs (destChildren (lookupE n ds)))))

/-- Model of copyWorkspaceToShadowRepo at the tree level. -/
def copyWorkspaceToShadowRepo (workspace shadow : Entry) : Entry :=
  .dir (copyTopSkipGit (childrenOf workspace) (childrenOf shadow))

/-- Recursive copy of copySnapshotToWorkspace (lines 1369-1410): no
ignore filtering at all, directories merged, files overwritten. -/
def copySnapChildren : List (String × Entry) → List (String × Entry) → List (String × Entry)
  | [], ds => ds
  | (n, .file c) :: rest, ds => copySnapChildren rest (setKey ds n (.file c))
  | (n, .dir cs) :: rest, ds =>
      copySnapChildren rest
        (setKey ds n (.dir (copySnapChildren cs (destChildren (lookupE n ds)))))

/-- Top-level loop of copySnapshotToWorkspace: every snapshot entry except
a top-level .git is copied into the workspace. -/
def copySnapTop : List (String × Entry) → List (String × Entry) → List (String × Entry)
  | [], ds => ds
  | (n, .file c) :: rest, ds =>
      if n == ".git" then copySnapTop rest ds
      else copySnapTop rest (setKey ds n (.file c))
  | (n, .dir cs) :: rest, ds =>
      if n == ".git" then copySnapTop rest ds
      else copySnapTop rest (setKey ds n (.dir (copySnapChildren cs (destChildren (lookupE n ds)))))

/-- Model of copySnapshotToWorkspace at the tree level. -/
def copySnapshotToWorkspace (snapshot workspace : Entry) : Entry :=
  .dir (copySnapTop (childrenOf snapshot) (childrenOf workspace))

/-- Model of cleanWorkspace (lines 1303-1364): delete every top-level
workspace entry whose name does not match the ignore test; matching
entries are skipped, so they survive the clean. -/
def cleanWorkspace (ws : Entry) : Entry :=
  .dir ((childrenOf ws).filter (fun p => shouldIgnore p.1))

/-- A snapshot in the shadow git history: commit hash (abstracted to the
position of the commit in the chain), commit message, and the committed
tree. -/
structure Commit where
  hash : Nat
  message : String
  tree : Entry

/-- Work tree of the shadow repository directory: everything except the
top-level .git metadata subtree.  This is what git add "." stages. -/
def workTree (e : Entry) : Entry :=
  .dir ((childrenOf e).filter (fun p => !(p.1 == ".git")))

/-- Model of the external commit primitive after git add ".": the staged
tree is the whole work tree; committing a tree equal to the head tree
(or an empty tree on an empty history) fails with the git message the
source string-matches on; otherwise a new commit is prepended to the
history (newest first). -/
def gitCommit (commits : List Commit) (tree : Entry) (msg : String) : Except String (List Commit) :=
  match commits with
  | [] =>
      if entryBeq tree (.dir []) then .error "nothing to commit, working tree clean"
      else .ok [{ hash := 0, message := msg, tree := tree }]
  | c :: rest =>
      if entryBeq tree c.tree then .error "nothing to commit, working tree clean"
      else .ok ({ hash := (c :: rest).length, message := msg, tree := tree } :: c :: rest)

/-- Commit with the given hash, if any. -/
def findCommit (commits : List Commit) (h : Nat) : Option Commit :=
  commits.find? (fun c => c.hash == h)

/-- State of one project: the live workspace tree, the shadow repository
directory tree (which carries the .git entry), and the commit history of
the shadow repository, newest first, as returned by log. -/
structure SysState where
  workspace : Entry
  shadowDir : Entry
  commits : List Commit

/-- Tree of the newest snapshot (the head commit). -/
def headTree (s : SysState) : Entry :=
  match s.commits with
  | [] => .dir []
  | c :: _ => c.tree

/-- Commit message construction of saveSnapshot (lines 339-342): a prompt
that is truthy and has a truthy trim is prepended, trimmed, with the
reserved delimiter; otherwise the bare timestamp form is used. -/
def buildCommitMessage (prompt timestamp : String) : String :=
  if prompt != "" && jsTrim prompt != "" then
    jsTrim prompt ++ " | Snapshot @ " ++ timestamp
  else
    "Snapshot @ " ++ timestamp

/-- Error reporting of the saveSnapshot catch block (lines 357-372):
the thrown message is classified by substring matching. -/
def reportSaveError (m : String) : String :=
  if strIncludes m "Git directory not found" then
    "Failed to save snapshot: Git repository corrupted. Try running \"Repair Repository\" command."
  else if strIncludes m "not accessible" then
    "Failed to save snapshot: Git repository not accessible. Check file permissions."
  else
    "Failed to save snapshot: " ++ m

/-- Model of saveSnapshot (lines 294-373) on a state with an open
workspace and a supplied prompt: mirror the workspace into the shadow
repository, stage everything, commit; any thrown error is converted into
the user-visible failure message.  The result is the new state paired
with the message shown to the user. -/
def saveSnapshot (s : SysState) (statusOk : Bool) (prompt timestamp : String) : SysState × String :=
  let r := copyWorkspaceFiles statusOk s.workspace s.shadowDir
  match r.2 with
  | some err => ({ s with shadowDir := r.1 }, reportSaveError err)
  | none =>
      let s1 : SysState := { s with shadowDir := r.1 }
      let msg := buildCommitMessage prompt timestamp
      match gitCommit s1.commits (workTree s1.shadowDir) msg with
      | .ok cs => ({ s1 with commits := cs }, "Snapshot saved: " ++ msg)
      | .error e => (s1, reportSaveError e)

/-- Recovery path of restoreSnapshot (lines 1143-1149): git reset --hard
HEAD plus clean of untracked files on the live store; with no commits the
reset fails and is swallowed.  The commit history is untouched. -/
def recoverStore (s : SysState) : SysState :=
  match s.commits with
  | [] => s
  | c :: _ =>
      { s with shadowDir := .dir (cleanExceptGit (childrenOf s.shadowDir) ++ childrenOf c.tree) }

/-- Model of synchronizeShadowRepo (lines 1163-1216): clean the shadow
directory except .git, mirror the workspace in through the ignore
filter, stage and commit a restore marker.  A commit failure whose
message contains "nothing to commit" is treated as success; any other
error reaches the outer catch of the same function and is also
swallowed, so the function never throws and never rewrites history. -/
def synchronizeShadowRepo (s : SysState) (restoredHash : Nat) (timestamp : String) : SysState :=
  let newShadow := copyWorkspaceToShadowRepo s.workspace (.dir (cleanExceptGit (childrenOf s.shadowDir)))
  let msg := "Restored to snapshot " ++ String.mk ((toString restoredHash).data.take 8) ++
    " | Snapshot @ " ++ timestamp
  let s1 : SysState := { s with shadowDir := newShadow }
  match gitCommit s1.commits (workTree newShadow) msg with
  | .ok cs => { s1 with commits := cs }
  | .error e => if strIncludes e "nothing to commit" then s1 else s1

/-- Model of restoreSnapshot (lines 1088-1157): after user confirmation,
clone the store and check out the target snapshot in isolation (modelled
by looking the commit up; an unknown hash makes the checkout fail before
the workspace is touched, triggering the recovery path), then clean the
workspace, copy the snapshot tree in, and resynchronize the store. -/
def restoreSnapshot (s : SysState) (h : Nat) (timestamp : String) (confirm : Bool) : SysState × String :=
  if confirm then
    match findCommit s.commits h with
    | none => (recoverStore s, "Failed to restore snapshot: checkout failed")
    | some c =>
        let ws1 := cleanWorkspace s.workspace
        let ws2 := copySnapshotToWorkspace c.tree ws1
        let s2 : SysState := { s with workspace := ws2 }
        (synchronizeShadowRepo s2 h timestamp, "Snapshot restored successfully")
  else (s, "")

/-- User-driven operations on one project: external workspace edits,
captures and restores. -/
inductive Op where
  | edit (ws : Entry)
  | capture (statusOk : Bool) (prompt timestamp : String)
  | restoreOp (h : Nat) (timestamp : String) (confirm : Bool)

/-- One operation step. -/
def runOp (s : SysState) : Op → SysState
  | .edit ws => { s with workspace := ws }
  | .capture ok prompt t => (saveSnapshot s ok prompt t).1
  | .restoreOp h t confirm => (restoreSnapshot s h t confirm).1

/-- A whole interaction history. -/
def runOps (s : SysState) (ops : List Op) : SysState :=
  ops.foldl runOp s

/-- One entry of the ordered log returned by the git backend, newest
first: commit hash, author date and full message. -/
structure LogEntry where
  hash : String
  date : String
  message : String
deriving DecidableEq

/-- One file row of a backend diff summary.  A binary file is reported
without line counts, modelled by none. -/
structure DiffFile where
  file : String
  insertions : Option Nat
  deletions : Option Nat
deriving DecidableEq

/-- A backend diff summary: per-file rows plus the aggregate insertion
and deletion totals the backend computed. -/
structure DiffSummary where
  files : List DiffFile
  insertions : Nat
  deletions : Nat
deriving DecidableEq

/-- Status assigned to a changed file by the change analyzer. -/
inductive FileStatus where
  | added
  | modified
  | deleted
deriving DecidableEq

/-- Model of the FileChangeDetail record (lines 26-31). -/
structure FileChangeDetail where
  filename : String
  linesAdded : Nat
  linesRemoved : Nat
  status : FileStatus
deriving DecidableEq

/-- Per-file classification of getCommitHistory (lines 582-594): missing
line counts become zero, and the status is added when only insertions
are present, deleted when only deletions are present, modified
otherwise. -/
def classifyFile (f : DiffFile) : FileChangeDetail :=
  let ins := f.insertions.getD 0
  let del := f.deletions.getD 0
  { filename := f.file
    linesAdded := ins
    linesRemoved := del
    status :=
      if ins > 0 && del == 0 then .added
      else if ins == 0 && del > 0 then .deleted
      else .modified }

/-- Change statistics derived from one backend diff summary
(lines 576-595): number of file rows, the backend aggregate totals, and
the classified per-file details. -/
def computeChangeStats (ds : DiffSummary) : Nat × Nat × Nat × List FileChangeDetail :=
  (ds.files.length, ds.insertions, ds.deletions, ds.files.map classifyFile)

/-- Model of the CommitInfo record (lines 11-24), restricted to the
fields the engine computes. -/
structure CommitInfo where
  hash : String
  timestamp : String
  message : String
  prompt : String
  filesChanged : Nat
  linesAdded : Nat
  linesRemoved : Nat
  fileDetails : List FileChangeDetail
deriving DecidableEq

/-- Stats of one commit against its predecessor (lines 565-600): the
first commit of the history and any per-commit diffSummary failure keep
all counts at zero while the commit itself stays in the timeline. -/
def commitStats (diffRes : String → String → Except String DiffSummary)
    (cur : LogEntry) : Option LogEntry → Nat × Nat × Nat × List FileChangeDetail
  | none => (0, 0, 0, [])
  | some prev =>
      match diffRes prev.hash cur.hash with
      | .error _ => (0, 0, 0, [])
      | .ok ds => computeChangeStats ds

/-- One CommitInfo row (lines 556-613): the prompt is parsed from the
message by splitting on the reserved delimiter; the timestamp field is
populated from the raw commit date. -/
def buildCommitInfo (diffRes : String → String → Except String DiffSummary)
    (cur : LogEntry) (prev : Option LogEntry) : CommitInfo :=
  let parts := jsSplit cur.message " | Snapshot @ "
  let prompt := if parts.length > 1 then parts.getD 0 "" else ""
  let stats := commitStats diffRes cur prev
  { hash := cur.hash
    timestamp := cur.date
    message := cur.message
    prompt := prompt
    filesChanged := stats.1
    linesAdded := stats.2.1
    linesRemoved := stats.2.2.1
    fileDetails := stats.2.2.2 }

/-- Loop of getCommitHistory over the log, each commit paired with its
successor in the list (the previous snapshot in time). -/
def buildCommits (diffRes : String → String → Except String DiffSummary) :
    List LogEntry → List CommitInfo
  | [] => []
  | c :: rest => buildCommitInfo diffRes c rest.head? :: buildCommits diffRes rest

/-- Model of getCommitHistory (lines 538-631): a failed health check, a
failed log call, and an empty log all produce the empty timeline; every
backend failure is caught, so the function always returns a list. -/
def getCommitHistory (healthy : Bool) (logRes : Except String (List LogEntry))
    (diffRes : String → String → Except String DiffSummary) : List CommitInfo :=
  if healthy then
    match logRes with
    | .error _ => []
    | .ok entries => if entries.isEmpty then [] else buildCommits diffRes entries
  else []

/-- Base64 alphabet used by Buffer.toString("base64"). -/
def b64Alphabet : List Char :=
  "ABCDEFGHIJKLMNOPQRSTUVWXYZabcdefghijklmnopqrstuvwxyz0123456789+/".data

/-- Character of the base64 alphabet at the given index. -/
def b64Char (n : Nat) : Char := b64Alphabet.getD n 'A'

/-- Standard base64 encoding of a byte list, with padding. -/
def b64Encode : List Nat → List Char
  | [] => []
  | [b1] => [b64Char (b1 / 4), b64Char (b1 % 4 * 16), '=', '=']
  | [b1, b2] => [b64Char (b1 / 4), b64Char (b1 % 4 * 16 + b2 / 16), b64Char (b2 % 16 * 4), '=']
  | b1 :: b2 :: b3 :: rest =>
      [b64Char (b1 / 4), b64Char (b1 % 4 * 16 + b2 / 16),
       b64Char (b2 % 16 * 4 + b3 / 64), b64Char (b3 % 64)] ++ b64Encode rest

/-- Replacement of the characters the source strips from the base64 form
(replace(/[/+=]/g, "_"), line 167). -/
def sanitizeB64 (c : Char) : Char :=
  if c == '/' || c == '+' || c == '=' then '_' else c

/-- Model of the workspace hash of initializeShadowRepo (lines 166-168):
base64 of the absolute workspace path (paths are modelled as ASCII, one
byte per character), sanitized, truncated to 16 characters. -/
def workspaceHash (workspacePath : String) : String :=
  String.mk (((b64Encode (workspacePath.data.map Char.toNat)).map sanitizeB64).take 16)

/-- Model of path.basename: the last non-empty slash-separated segment. -/
def pathBasename (p : String) : String :=
  (((jsSplit p "/").filter (fun s => !(s == ""))).getLast?).getD ""

/-- Model of the per-project store directory name of initializeShadowRepo
(line 172): workspaceName plus underscore plus workspaceHash.  This is
the project identity that locates the store. -/
def shadowRepoDirName (workspacePath : String) : String :=
  pathBasename workspacePath ++ "_" ++ workspaceHash workspacePath

/-- Listing with the .git metadata entries removed: the mirrored content
of a store directory. -/
def stripGit (es : List (String × Entry)) : List (String × Entry) :=
  es.filter (fun p => !(p.1 == ".git"))

/-- A listing is clean for the ignore policy when no directory at any
depth has an exactly-ignored name and no file at any depth has a
substring-ignored name.  Mirror output satisfies this. -/
def goodChildren : List (String × Entry) → Bool
  | [] => true
  | (n, .file _) :: rest => !isIgnoredFile n && goodChildren rest
  | (n, .dir cs) :: rest => !isIgnoredDir n && goodChildren cs && goodChildren rest

/-- A listing has unique names at every depth, as any real directory
listing does. -/
def uniqChildren : List (String × Entry) → Bool
  | [] => true
  | (n, .file _) :: rest => !keyMemB n rest && uniqChildren rest
  | (n, .dir cs) :: rest => !keyMemB n rest && uniqChildren cs && uniqChildren rest

/-- Test for a file at the given directory path and basename in a
listing. -/
def hasFile : List (String × Entry) → List String → String → Bool
  | es, [], fname =>
      match lookupE fname es with
      | some (.file _) => true
      | _ => false
  | es, d :: rest, fname =>
      match lookupE d es with
      | some (.dir ds) => hasFile ds rest fname
      | _ => false

/-- Modelled from the spec: the external Store Adapter primitive
diffSummary of section 4.3 applied to the trees of two snapshots; the
only fact this development needs about it is that it reports zero files
changed precisely when the two committed trees are identical. -/
def diffSummaryZero (a b : Entry) : Bool := entryBeq a b

/-- Example state for a repeated capture: the workspace content already
equals the head snapshot tree and the shadow repository is in sync. -/
def noChangeState : SysState :=
  { workspace := .dir [("a.txt", .file "1")]
    shadowDir := .dir [(".git", .dir [("HEAD", .file "ref")]), ("a.txt", .file "1")]
    commits := [{ hash := 0, message := "Snapshot @ T0", tree := .dir [("a.txt", .file "1")] }] }

/-- Example state for a restore with an ignored-name leftover directory
in the workspace: my_build is kept by the clean (substring match on
build) but mirrored into the store (no exact directory match). -/
def leftoverState : SysState :=
  { workspace := .dir [("my_build", .dir [("x.txt", .file "1")])]
    shadowDir := .dir [(".git", .dir [("HEAD", .file "ref")])]
    commits := [{ hash := 0, message := "Snapshot @ T0", tree := .dir [("a.txt", .file "1")] }] }

/-- Example state for a restore with an ignored file in the workspace. -/
def envFileState : SysState :=
  { workspace := .dir [(".env", .file "SECRET"), ("b.txt", .file "old")]
    shadowDir := .dir [(".git", .dir [("HEAD", .file "ref")])]
    commits := [{ hash := 0, message := "Snapshot @ T0", tree := .dir [("a.txt", .file "1")] }] }

/-- Example state for a restore whose workspace clean removes everything
(no ignored-name leftovers). -/
def cleanRestoreState : SysState :=
  { workspace := .dir [("tmp.txt", .file "x")]
    shadowDir := .dir [(".git", .dir [("HEAD", .file "ref")])]
    commits := [{ hash := 0, message := "Snapshot @ T0", tree := .dir [("a.txt", .file "1")] }] }

/-- Concrete diff summary of the spec scenario: file A with 10/0, B with
0/5, C with 3/2, and consistent aggregate totals. -/
def abcDiffSummary : DiffSummary :=
  { files := [{ file := "A", insertions := some 10, deletions := some 0 },
              { file := "B", insertions := some 0, deletions := some 5 },
              { file := "C", insertions := some 3, deletions := some 2 }]
    insertions := 13
    deletions := 7 }

/-- Example log entries for the timeline model, newest first. -/
def logNewest : LogEntry :=
  { hash := "a1", date := "2024-01-02", message := "fix | Snapshot @ 2024-01-02T00:00:00.000Z" }

/-- Older example log entry. -/
def logOldest : LogEntry :=
  { hash := "b2", date := "2024-01-01", message := "Snapshot @ 2024-01-01T00:00:00.000Z" }

/-- A diff backend that always fails. -/
def alwaysFailDiff : String → String → Except String DiffSummary :=
  fun _ _ => .error "diff failed"

theorem isIgnoredFile_git : isIgnoredFile ".git" = true := by decide

theorem isIgnoredDir_git : isIgnoredDir ".git" = true := by decide

theorem lookupE_setKey_ne (m n : String) (es : List (String × Entry)) (v : Entry)
    (h : ¬ n = m) : lookupE m (setKey es n v) = lookupE m es := by
  induction es with
  | nil => simp [setKey, lookupE, h]
  | cons p rest ih =>
    obtain ⟨k, e⟩ := p
    by_cases hk : k = n
    · subst hk
      simp [setKey, lookupE, h]
    · simp only [setKey, lookupE]
      rw [if_neg (by simpa using hk)]
      by_cases hm : k = m
      · simp [hm, lookupE]
      · simp [lookupE, hm, ih]

theorem setKey_fresh (n : String) (es : List (String × Entry)) (v : Entry)
    (h : lookupE n es = none) : setKey es n v = es ++ [(n, v)] := by
  induction es with
  | nil => simp [setKey]
  | cons p rest ih =>
    obtain ⟨k, e⟩ := p
    by_cases hk : k = n
    · subst hk
      simp [lookupE] at h
    · simp only [lookupE] at h
      rw [if_neg (by simpa using hk)] at h
      simp only [setKey]
      rw [if_neg (by simpa using hk)]
      simp [ih h]

theorem lookupE_append_none (n : String) (as bs : List (String × Entry))
    (h : lookupE n as = none) : lookupE n (as ++ bs) = lookupE n bs := by
  induction as with
  | nil => simp
  | cons p rest ih =>
    obtain ⟨k, e⟩ := p
    simp only [lookupE] at h ⊢
    by_cases hk : k = n
    · simp [hk] at h
    · rw [if_neg (by simpa using hk)] at h ⊢
      exact ih h

theorem stripGit_setKey (n : String) (es : List (String × Entry)) (v : Entry)
    (h : ¬ n = ".git") : stripGit (setKey es n v) = setKey (stripGit es) n v := by
  have hn : (n == ".git") = false := by simpa using h
  induction es with
  | nil => simp [setKey, stripGit, List.filter_cons, hn]
  | cons p rest ih =>
    obtain ⟨k, e⟩ := p
    simp only [stripGit] at ih ⊢
    by_cases hk : k = n
    · subst hk
      simp [setKey, List.filter_cons, hn]
    · have hk' : (k == n) = false := by simpa using hk
      by_cases hg : k = ".git"
      · subst hg
        simp [setKey, List.filter_cons, hk', ih]
      · have hg' : (k == ".git") = false := by simpa using hg
        simp [setKey, List.filter_cons, hk', hg', ih]

theorem lookupE_stripGit (n : String) (es : List (String × Entry))
    (h : ¬ n = ".git") : lookupE n (stripGit es) = lookupE n es := by
  induction es with
  | nil => simp [stripGit]
  | cons p rest ih =>
    obtain ⟨k, e⟩ := p
    by_cases hg : k = ".git"
    · subst hg
      simp only [stripGit, List.filter, lookupE] at ih ⊢
      rw [if_neg (by simpa using (fun hh => h hh.symm : ¬ ".git" = n))]
      simpa using ih
    · simp only [stripGit, List.filter, lookupE] at ih ⊢
      rw [show ((k == ".git") = false) from by simpa using hg]
      simp only [lookupE]
      by_cases hk : k = n
      · simp [hk]
      · rw [if_neg (by simpa using hk), if_neg (by simpa using hk)]
        simpa using ih

theorem stripGit_append (as bs : List (String × Entry)) :
    stripGit (as ++ bs) = stripGit as ++ stripGit bs := by
  simp [stripGit, List.filter_append]

theorem lookupE_cleanExceptGit (es : List (String × Entry)) :
    lookupE ".git" (cleanExceptGit es) = lookupE ".git" es := by
  induction es with
  | nil => simp [cleanExceptGit]
  | cons p rest ih =>
    obtain ⟨k, e⟩ := p
    by_cases hg : k = ".git"
    · subst hg
      simp [cleanExceptGit, List.filter, lookupE] at ih ⊢
    · simp only [cleanExceptGit, List.filter, lookupE] at ih ⊢
      rw [show ((k == ".git") = false) from beq_eq_false_iff_ne.mpr hg]
      rw [if_neg (by simp [hg])]
      exact ih

theorem stripGit_cleanExceptGit (es : List (String × Entry)) :
    stripGit (cleanExceptGit es) = [] := by
  induction es with
  | nil => simp [cleanExceptGit, stripGit]
  | cons p rest ih =>
    obtain ⟨k, e⟩ := p
    by_cases hg : k = ".git"
    · subst hg
      simp only [cleanExceptGit, stripGit, List.filter] at ih ⊢
      simp [ih]
    · simp only [cleanExceptGit, stripGit, List.filter] at ih ⊢
      rw [show ((k == ".git") = false) from beq_eq_false_iff_ne.mpr hg]
      exact ih

theorem stripGit_empty_lookup (n : String) (ds : List (String × Entry))
    (hs : stripGit ds = []) (h : ¬ n = ".git") : lookupE n ds = none := by
  rw [← lookupE_stripGit n ds h, hs]
  rfl

theorem entryBeq_refl : ∀ e : Entry, entryBeq e e = true
  | .file _ => by simp [entryBeq]
  | .dir [] => by simp [entryBeq]
  | .dir ((n, x) :: xs) => by
      have h1 := entryBeq_refl x
      have h2 := entryBeq_refl (.dir xs)
      simp [entryBeq, h1, h2]

theorem entryBeq_eq : ∀ a b : Entry, entryBeq a b = true → a = b
  | .file _, .file _ => by
      intro h
      simp [entryBeq] at h
      simp [h]
  | .file _, .dir _ => by intro h; simp [entryBeq] at h
  | .dir _, .file _ => by intro h; simp [entryBeq] at h
  | .dir [], .dir [] => by intro _; rfl
  | .dir [], .dir (_ :: _) => by intro h; simp [entryBeq] at h
  | .dir (_ :: _), .dir [] => by intro h; simp [entryBeq] at h
  | .dir ((n, x) :: xs), .dir ((m, y) :: ys) => by
      intro h
      simp only [entryBeq, Bool.and_eq_true] at h
      obtain ⟨⟨h1, h2⟩, h3⟩ := h
      have e1 : x = y := entryBeq_eq x y h2
      have e2 : Entry.dir xs = Entry.dir ys := entryBeq_eq (.dir xs) (.dir ys) h3
      have e3 : xs = ys := by injection e2
      have e4 : n = m := by simpa using h1
      simp [e1, e3, e4]

theorem copyChildren_keeps_git (cs ds : List (String × Entry)) :
    lookupE ".git" (copyChildren cs ds) = lookupE ".git" ds := by
  induction cs, ds using copyChildren.induct with
  | case1 ds => simp [copyChildren]
  | case2 n c rest ds ih =>
      by_cases hi : isIgnoredFile n
      · simp only [copyChildren, hi, if_true] at ih ⊢
        exact ih
      · have hg : ¬ n = ".git" := by
          intro h
          rw [h, isIgnoredFile_git] at hi
          exact hi rfl
        simp [copyChildren, hi] at ih ⊢
        rw [ih, lookupE_setKey_ne _ _ _ _ hg]
  | case3 n cs' rest ds ih1 ih2 =>
      by_cases hi : isIgnoredDir n
      · simp only [copyChildren, hi, if_true] at ih2 ⊢
        exact ih2
      · have hg : ¬ n = ".git" := by
          intro h
          rw [h, isIgnoredDir_git] at hi
          exact hi rfl
        simp [copyChildren, hi] at ih2 ⊢
        rw [ih2, lookupE_setKey_ne _ _ _ _ hg]

theorem copyTopSkipGit_keeps_git (cs ds : List (String × Entry)) :
    lookupE ".git" (copyTopSkipGit cs ds) = lookupE ".git" ds := by
  induction cs, ds using copyTopSkipGit.induct with
  | case1 ds => simp [copyTopSkipGit]
  | case2 n c rest ds hgit ih =>
      simp only [copyTopSkipGit, hgit, if_true] at ih ⊢
      exact ih
  | case3 n c rest ds hgit ih =>
      have hg : ¬ n = ".git" := by simpa using hgit
      by_cases hi : isIgnoredFile n
      · simp only [copyTopSkipGit, hgit, hi] at ih ⊢
        simp only [Bool.false_eq_true, if_false, if_true] at ih ⊢
        exact ih
      · simp [copyTopSkipGit, hgit, hi] at ih ⊢
        rw [ih, lookupE_setKey_ne _ _ _ _ hg]
  | case4 n cs' rest ds hgit ih =>
      simp only [copyTopSkipGit, hgit, if_true] at ih ⊢
      exact ih
  | case5 n cs' rest ds hgit ih =>
      have hg : ¬ n = ".git" := by simpa using hgit
      by_cases hi : isIgnoredDir n
      · simp only [copyTopSkipGit, hgit, hi] at ih ⊢
        simp only [Bool.false_eq_true, if_false, if_true] at ih ⊢
        exact ih
      · simp [copyTopSkipGit, hgit, hi] at ih ⊢
        rw [ih, lookupE_setKey_ne _ _ _ _ hg]

theorem good_lookup_file (es : List (String × Entry)) (k : String) (c : String)
    (hg : goodChildren es = true) (hl : lookupE k es = some (.file c)) :
    isIgnoredFile k = false := by
  induction es with
  | nil => simp [lookupE] at hl
  | cons p rest ih =>
    obtain ⟨m, e⟩ := p
    by_cases hm : m = k
    · subst hm
      simp only [lookupE, beq_self_eq_true, if_true] at hl
      cases e with
      | file c2 =>
          simp only [goodChildren, Bool.and_eq_true] at hg
          simpa using hg.1
      | dir ds => simp at hl
    · simp only [lookupE] at hl
      rw [if_neg (by simpa using hm)] at hl
      cases e with
      | file c2 =>
          simp only [goodChildren, Bool.and_eq_true] at hg
          exact ih hg.2 hl
      | dir ds =>
          simp only [goodChildren, Bool.and_eq_true] at hg
          exact ih hg.2 hl

theorem good_lookup_dir (es : List (String × Entry)) (k : String) (ds : List (String × Entry))
    (hg : goodChildren es = true) (hl : lookupE k es = some (.dir ds)) :
    isIgnoredDir k = false ∧ goodChildren ds = true := by
  induction es with
  | nil => simp [lookupE] at hl
  | cons p rest ih =>
    obtain ⟨m, e⟩ := p
    by_cases hm : m = k
    · subst hm
      simp only [lookupE, beq_self_eq_true, if_true] at hl
      cases e with
      | file c2 => simp at hl
      | dir ds2 =>
          simp only [goodChildren, Bool.and_eq_true] at hg
          have : ds2 = ds := by simpa using hl
          subst this
          exact ⟨by simpa using hg.1.1, hg.1.2⟩
    · simp only [lookupE] at hl
      rw [if_neg (by simpa using hm)] at hl
      cases e with
      | file c2 =>
          simp only [goodChildren, Bool.and_eq_true] at hg
          exact ih hg.2 hl
      | dir ds2 =>
          simp only [goodChildren, Bool.and_eq_true] at hg
          exact ih hg.2 hl

theorem good_setKey_file (es : List (String × Entry)) (n : String) (c : String)
    (hg : goodChildren es = true) (hn : isIgnoredFile n = false) :
    goodChildren (setKey es n (.file c)) = true := by
  induction es with
  | nil => simp [setKey, goodChildren, hn]
  | cons p rest ih =>
    obtain ⟨m, e⟩ := p
    by_cases hm : m = n
    · subst hm
      cases e with
      | file c2 =>
          simp only [goodChildren, Bool.and_eq_true] at hg
          simp [setKey, goodChildren, hn, hg.2]
      | dir ds =>
          simp only [goodChildren, Bool.and_eq_true] at hg
          simp [setKey, goodChildren, hn, hg.2]
    · cases e with
      | file c2 =>
          simp only [goodChildren, Bool.and_eq_true] at hg
          simp only [setKey]
          rw [if_neg (by simpa using hm)]
          simp [goodChildren, hg.1, ih hg.2]
      | dir ds =>
          simp only [goodChildren, Bool.and_eq_true] at hg
          simp only [setKey]
          rw [if_neg (by simpa using hm)]
          simp [goodChildren, hg.1.1, hg.1.2, ih hg.2]

theorem good_setKey_dir (es : List (String × Entry)) (n : String) (ds : List (String × Entry))
    (hg : goodChildren es = true) (hn : isIgnoredDir n = false) (hd : goodChildren ds = true) :
    goodChildren (setKey es n (.dir ds)) = true := by
  induction es with
  | nil => simp [setKey, goodChildren, hn, hd]
  | cons p rest ih =>
    obtain ⟨m, e⟩ := p
    by_cases hm : m = n
    · subst hm
      cases e with
      | file c2 =>
          simp only [goodChildren, Bool.and_eq_true] at hg
          simp [setKey, goodChildren, hn, hd, hg.2]
      | dir ds2 =>
          simp only [goodChildren, Bool.and_eq_true] at hg
          simp [setKey, goodChildren, hn, hd, hg.2]
    · cases e with
      | file c2 =>
          simp only [goodChildren, Bool.and_eq_true] at hg
          simp only [setKey]
          rw [if_neg (by simpa using hm)]
          simp [goodChildren, hg.1, ih hg.2]
      | dir ds2 =>
          simp only [goodChildren, Bool.and_eq_true] at hg
          simp only [setKey]
          rw [if_neg (by simpa using hm)]
          simp [goodChildren, hg.1.1, hg.1.2, ih hg.2]

theorem good_stripGit_id (es : List (String × Entry))
    (hg : goodChildren es = true) : stripGit es = es := by
  induction es with
  | nil => rfl
  | cons p rest ih =>
    obtain ⟨m, e⟩ := p
    cases e with
    | file c =>
        simp only [goodChildren, Bool.and_eq_true] at hg
        have hm : ¬ m = ".git" := by
          intro h
          rw [h, isIgnoredFile_git] at hg
          simpa using hg.1
        simp only [stripGit, List.filter_cons]
        rw [show (!(m == ".git")) = true from by simpa using hm]
        simpa [stripGit] using ih hg.2
    | dir ds =>
        simp only [goodChildren, Bool.and_eq_true] at hg
        have hm : ¬ m = ".git" := by
          intro h
          rw [h, isIgnoredDir_git] at hg
          simpa using hg.1.1
        simp only [stripGit, List.filter_cons]
        rw [show (!(m == ".git")) = true from by simpa using hm]
        simpa [stripGit] using ih hg.2

theorem mirrorGoodInner (cs ds : List (String × Entry))
    (hg : goodChildren ds = true) : goodChildren (copyChildren cs ds) = true := by
  induction cs, ds using copyChildren.induct with
  | case1 ds => simpa [copyChildren] using hg
  | case2 n c rest ds ih =>
      by_cases hi : isIgnoredFile n
      · simp only [copyChildren, hi, if_true] at ih ⊢
        exact ih hg
      · simp [copyChildren, hi] at ih ⊢
        exact ih (good_setKey_file ds n c hg (by simpa using hi))
  | case3 n cs' rest ds ih1 ih2 =>
      by_cases hi : isIgnoredDir n
      · simp only [copyChildren, hi, if_true] at ih2 ⊢
        exact ih2 hg
      · have hdc : goodChildren (destChildren (lookupE n ds)) = true := by
          cases hl : lookupE n ds with
          | none => simp [destChildren, goodChildren]
          | some e =>
              cases e with
              | file c => simp [destChildren, goodChildren]
              | dir ds' =>
                  simpa [destChildren] using (good_lookup_dir ds n ds' hg hl).2
        simp [copyChildren, hi] at ih1 ih2 ⊢
        exact ih2 (good_setKey_dir ds n _ hg (by simpa using hi) (ih1 hdc))

theorem mirrorGoodTop (cs ds : List (String × Entry))
    (hg : goodChildren (stripGit ds) = true) :
    goodChildren (stripGit (copyChildren cs ds)) = true := by
  induction cs, ds using copyChildren.induct with
  | case1 ds => simpa [copyChildren] using hg
  | case2 n c rest ds ih =>
      by_cases hi : isIgnoredFile n
      · simp only [copyChildren, hi, if_true] at ih ⊢
        exact ih hg
      · have hng : ¬ n = ".git" := by
          intro h
          rw [h, isIgnoredFile_git] at hi
          exact hi rfl
        simp [copyChildren, hi] at ih ⊢
        refine ih ?_
        rw [stripGit_setKey n ds _ hng]
        exact good_setKey_file _ n c hg (by simpa using hi)
  | case3 n cs' rest ds ih1 ih2 =>
      by_cases hi : isIgnoredDir n
      · simp only [copyChildren, hi, if_true] at ih2 ⊢
        exact ih2 hg
      · have hng : ¬ n = ".git" := by
          intro h
          rw [h, isIgnoredDir_git] at hi
          exact hi rfl
      -- the destination subtree at n is good, via the stripped listing
        have hdc : goodChildren (destChildren (lookupE n ds)) = true := by
          rw [← lookupE_stripGit n ds hng]
          cases hl : lookupE n (stripGit ds) with
          | none => simp [destChildren, goodChildren]
          | some e =>
              cases e with
              | file c => simp [destChildren, goodChildren]
              | dir ds' =>
                  simpa [destChildren] using (good_lookup_dir _ n ds' hg hl).2
        simp [copyChildren, hi] at ih2 ⊢
        refine ih2 ?_
        rw [stripGit_setKey n ds _ hng]
        exact good_setKey_dir _ n _ hg (by simpa using hi) (mirrorGoodInner cs' _ hdc)

theorem good_no_hasFile (segs : List String) (es : List (String × Entry)) (fname : String)
    (hg : goodChildren es = true)
    (hb : (segs.any isIgnoredDir || isIgnoredFile fname) = true) :
    hasFile es segs fname = false := by
  induction segs generalizing es with
  | nil =>
      simp only [List.any_nil, Bool.false_or] at hb
      simp only [hasFile]
      cases hl : lookupE fname es with
      | none => rfl
      | some e =>
          cases e with
          | file c =>
              have := good_lookup_file es fname c hg hl
              rw [this] at hb
              simp at hb
          | dir ds => rfl
  | cons d rest ih =>
      simp only [hasFile]
      cases hl : lookupE d es with
      | none => rfl
      | some e =>
          cases e with
          | file c => rfl
          | dir ds =>
              have hd := good_lookup_dir es d ds hg hl
              have hb2 : (rest.any isIgnoredDir || isIgnoredFile fname) = true := by
                simp only [List.any_cons, Bool.or_eq_true] at hb
                rcases hb with (h | h) | h
                · rw [hd.1] at h
                  simp at h
                · simp [h]
                · simp [h]
              exact ih ds hd.2 hb2

theorem lookupE_pair_ne (m n : String) (v : Entry) (h : ¬ n = m) :
    lookupE m [(n, v)] = none := by
  simp only [lookupE]
  rw [if_neg (by simpa using h)]

theorem copyId (cs ds : List (String × Entry))
    (hg : goodChildren cs = true) (hu : uniqChildren cs = true)
    (hf : ∀ m, keyMemB m cs = true → lookupE m ds = none) :
    copyChildren cs ds = ds ++ cs := by
  induction cs, ds using copyChildren.induct with
  | case1 ds => simp [copyChildren]
  | case2 n c rest ds ih =>
      simp only [goodChildren, Bool.and_eq_true] at hg
      simp only [uniqChildren, Bool.and_eq_true] at hu
      have hi : ¬ isIgnoredFile n = true := by simpa using hg.1
      have hl : lookupE n ds = none := hf n (by simp [keyMemB])
      simp [copyChildren, hi] at ih ⊢
      rw [setKey_fresh n ds _ hl] at ih ⊢
      have hf2 : ∀ m, keyMemB m rest = true → lookupE m (ds ++ [(n, Entry.file c)]) = none := by
        intro m hm
        have hnm : ¬ n = m := by
          intro h
          subst h
          rw [hm] at hu
          simpa using hu.1
        rw [lookupE_append_none m ds _ (hf m (by simp [keyMemB, hm]))]
        exact lookupE_pair_ne m n _ hnm
      rw [ih hg.2 hu.2 hf2]
      simp
  | case3 n cs' rest ds ih1 ih2 =>
      simp only [goodChildren, Bool.and_eq_true] at hg
      simp only [uniqChildren, Bool.and_eq_true] at hu
      have hi : ¬ isIgnoredDir n = true := by simpa using hg.1.1
      have hl : lookupE n ds = none := hf n (by simp [keyMemB])
      simp [copyChildren, hi] at ih1 ih2 ⊢
      rw [hl] at ih1 ih2 ⊢
      simp only [destChildren] at ih1 ih2 ⊢
      have hinner : copyChildren cs' [] = cs' := by
        have := ih1 hg.1.2 hu.1.2 (by intro m _; rfl)
        simpa using this
      rw [hinner] at ih2 ⊢
      rw [setKey_fresh n ds _ hl] at ih2 ⊢
      have hf2 : ∀ m, keyMemB m rest = true → lookupE m (ds ++ [(n, Entry.dir cs')]) = none := by
        intro m hm
        have hnm : ¬ n = m := by
          intro h
          subst h
          rw [hm] at hu
          simpa using hu.1.1
        rw [lookupE_append_none m ds _ (hf m (by simp [keyMemB, hm]))]
        exact lookupE_pair_ne m n _ hnm
      rw [ih2 hg.2 hu.2 hf2]
      simp

theorem stripGit_pair (n : String) (v : Entry) (h : ¬ n = ".git") :
    stripGit [(n, v)] = [(n, v)] := by
  simp only [stripGit, List.filter_cons]
  rw [show (!(n == ".git")) = true from by simpa using h]
  rfl

theorem topSkipGitId (cs ds : List (String × Entry))
    (hg : goodChildren cs = true) (hu : uniqChildren cs = true)
    (hf : ∀ m, keyMemB m cs = true → lookupE m ds = none) :
    stripGit (copyTopSkipGit cs ds) = stripGit ds ++ cs := by
  induction cs, ds using copyTopSkipGit.induct with
  | case1 ds => simp [copyTopSkipGit]
  | case2 n c rest ds hgit ih =>
      simp only [goodChildren, Bool.and_eq_true] at hg
      have hn : n = ".git" := by simpa using hgit
      rw [hn, isIgnoredFile_git] at hg
      simpa using hg.1
  | case3 n c rest ds hgit ih =>
      simp only [goodChildren, Bool.and_eq_true] at hg
      simp only [uniqChildren, Bool.and_eq_true] at hu
      have hn : ¬ n = ".git" := by simpa using hgit
      have hi : ¬ isIgnoredFile n = true := by simpa using hg.1
      have hl : lookupE n ds = none := hf n (by simp [keyMemB])
      simp [copyTopSkipGit, hgit, hi] at ih ⊢
      rw [setKey_fresh n ds _ hl] at ih ⊢
      have hf2 : ∀ m, keyMemB m rest = true → lookupE m (ds ++ [(n, Entry.file c)]) = none := by
        intro m hm
        have hnm : ¬ n = m := by
          intro h
          subst h
          rw [hm] at hu
          simpa using hu.1
        rw [lookupE_append_none m ds _ (hf m (by simp [keyMemB, hm]))]
        exact lookupE_pair_ne m n _ hnm
      rw [ih hg.2 hu.2 hf2, stripGit_append, stripGit_pair n _ hn]
      simp
  | case4 n cs' rest ds hgit ih =>
      simp only [goodChildren, Bool.and_eq_true] at hg
      have hn : n = ".git" := by simpa using hgit
      rw [hn, isIgnoredDir_git] at hg
      simpa using hg.1.1
  | case5 n cs' rest ds hgit ih =>
      simp only [goodChildren, Bool.and_eq_true] at hg
      simp only [uniqChildren, Bool.and_eq_true] at hu
      have hn : ¬ n = ".git" := by simpa using hgit
      have hi : ¬ isIgnoredDir n = true := by simpa using hg.1.1
      have hl : lookupE n ds = none := hf n (by simp [keyMemB])
      simp [copyTopSkipGit, hgit, hi] at ih ⊢
      rw [hl] at ih ⊢
      simp only [destChildren] at ih ⊢
      have hinner : copyChildren cs' [] = cs' := by
        have := copyId cs' [] hg.1.2 hu.1.2 (by intro m _; rfl)
        simpa using this
      rw [hinner] at ih ⊢
      rw [setKey_fresh n ds _ hl] at ih ⊢
      have hf2 : ∀ m, keyMemB m rest = true → lookupE m (ds ++ [(n, Entry.dir cs')]) = none := by
        intro m hm
        have hnm : ¬ n = m := by
          intro h
          subst h
          rw [hm] at hu
          simpa using hu.1.1
        rw [lookupE_append_none m ds _ (hf m (by simp [keyMemB, hm]))]
        exact lookupE_pair_ne m n _ hnm
      rw [ih hg.2 hu.2 hf2, stripGit_append, stripGit_pair n _ hn]
      simp

theorem snapChildrenId (cs ds : List (String × Entry))
    (hu : uniqChildren cs = true)
    (hf : ∀ m, keyMemB m cs = true → lookupE m ds = none) :
    copySnapChildren cs ds = ds ++ cs := by
  induction cs, ds using copySnapChildren.induct with
  | case1 ds => simp [copySnapChildren]
  | case2 n c rest ds ih =>
      simp only [uniqChildren, Bool.and_eq_true] at hu
      have hl : lookupE n ds = none := hf n (by simp [keyMemB])
      simp only [copySnapChildren] at ih ⊢
      rw [setKey_fresh n ds _ hl] at ih ⊢
      have hf2 : ∀ m, keyMemB m rest = true → lookupE m (ds ++ [(n, Entry.file c)]) = none := by
        intro m hm
        have hnm : ¬ n = m := by
          intro h
          subst h
          rw [hm] at hu
          simpa using hu.1
        rw [lookupE_append_none m ds _ (hf m (by simp [keyMemB, hm]))]
        exact lookupE_pair_ne m n _ hnm
      rw [ih hu.2 hf2]
      simp
  | case3 n cs' rest ds ih1 ih2 =>
      simp only [uniqChildren, Bool.and_eq_true] at hu
      have hl : lookupE n ds = none := hf n (by simp [keyMemB])
      simp only [copySnapChildren] at ih1 ih2 ⊢
      rw [hl] at ih1 ih2 ⊢
      simp only [destChildren] at ih1 ih2 ⊢
      have hinner : copySnapChildren cs' [] = cs' := by
        have := ih1 hu.1.2 (by intro m _; rfl)
        simpa using this
      rw [hinner] at ih2 ⊢
      rw [setKey_fresh n ds _ hl] at ih2 ⊢
      have hf2 : ∀ m, keyMemB m rest = true → lookupE m (ds ++ [(n, Entry.dir cs')]) = none := by
        intro m hm
        have hnm : ¬ n = m := by
          intro h
          subst h
          rw [hm] at hu
          simpa using hu.1.1
        rw [lookupE_append_none m ds _ (hf m (by simp [keyMemB, hm]))]
        exact lookupE_pair_ne m n _ hnm
      rw [ih2 hu.2 hf2]
      simp

theorem snapTopId (cs ds : List (String × Entry))
    (hg : goodChildren cs = true) (hu : uniqChildren cs = true)
    (hf : ∀ m, keyMemB m cs = true → lookupE m ds = none) :
    copySnapTop cs ds = ds ++ cs := by
  induction cs, ds using copySnapTop.induct with
  | case1 ds => simp [copySnapTop]
  | case2 n c rest ds hgit ih =>
      simp only [goodChildren, Bool.and_eq_true] at hg
      have hn : n = ".git" := by simpa using hgit
      rw [hn, isIgnoredFile_git] at hg
      simpa using hg.1
  | case3 n c rest ds hgit ih =>
      simp only [goodChildren, Bool.and_eq_true] at hg
      simp only [uniqChildren, Bool.and_eq_true] at hu
      have hl : lookupE n ds = none := hf n (by simp [keyMemB])
      simp [copySnapTop, hgit] at ih ⊢
      rw [setKey_fresh n ds _ hl] at ih ⊢
      have hf2 : ∀ m, keyMemB m rest = true → lookupE m (ds ++ [(n, Entry.file c)]) = none := by
        intro m hm
        have hnm : ¬ n = m := by
          intro h
          subst h
          rw [hm] at hu
          simpa using hu.1
        rw [lookupE_append_none m ds _ (hf m (by simp [keyMemB, hm]))]
        exact lookupE_pair_ne m n _ hnm
      rw [ih hg.2 hu.2 hf2]
      simp
  | case4 n cs' rest ds hgit ih =>
      simp only [goodChildren, Bool.and_eq_true] at hg
      have hn : n = ".git" := by simpa using hgit
      rw [hn, isIgnoredDir_git] at hg
      simpa using hg.1.1
  | case5 n cs' rest ds hgit ih =>
      simp only [goodChildren, Bool.and_eq_true] at hg
      simp only [uniqChildren, Bool.and_eq_true] at hu
      have hl : lookupE n ds = none := hf n (by simp [keyMemB])
      simp [copySnapTop, hgit] at ih ⊢
      rw [hl] at ih ⊢
      simp only [destChildren] at ih ⊢
      have hinner : copySnapChildren cs' [] = cs' := by
        have := snapChildrenId cs' [] hu.1.2 (by intro m _; rfl)
        simpa using this
      rw [hinner] at ih ⊢
      rw [setKey_fresh n ds _ hl] at ih ⊢
      have hf2 : ∀ m, keyMemB m rest = true → lookupE m (ds ++ [(n, Entry.dir cs')]) = none := by
        intro m hm
        have hnm : ¬ n = m := by
          intro h
          subst h
          rw [hm] at hu
          simpa using hu.1.1
        rw [lookupE_append_none m ds _ (hf m (by simp [keyMemB, hm]))]
        exact lookupE_pair_ne m n _ hnm
      rw [ih hg.2 hu.2 hf2]
      simp

theorem gitCommit_ok_shape (commits : List Commit) (tree : Entry) (msg : String)
    (cs : List Commit) (h : gitCommit commits tree msg = .ok cs) :
    cs = { hash := commits.length, message := msg, tree := tree } :: commits := by
  cases commits with
  | nil =>
      simp only [gitCommit] at h
      by_cases hb : entryBeq tree (.dir []) = true
      · simp [hb] at h
      · simp [hb] at h
        simp [← h]
  | cons c rest =>
      simp only [gitCommit] at h
      by_cases hb : entryBeq tree c.tree = true
      · simp [hb] at h
      · simp [hb] at h
        simp [← h]

theorem saveSnapshot_commits (s : SysState) (ok : Bool) (prompt t : String) :
    ∃ pre : List Commit,
      (saveSnapshot s ok prompt t).1.commits = pre ++ s.commits ∧ pre.length ≤ 1 := by
  simp only [saveSnapshot]
  cases hr : (copyWorkspaceFiles ok s.workspace s.shadowDir).2 with
  | some err => exact ⟨[], by simp⟩
  | none =>
      cases hc : gitCommit s.commits
          (workTree (copyWorkspaceFiles ok s.workspace s.shadowDir).1)
          (buildCommitMessage prompt t) with
      | error e => exact ⟨[], by simp⟩
      | ok cs =>
          refine ⟨[{ hash := s.commits.length,
                     message := buildCommitMessage prompt t,
                     tree := workTree (copyWorkspaceFiles ok s.workspace s.shadowDir).1 }], ?_⟩
          have := gitCommit_ok_shape _ _ _ _ hc
          simp [this]

theorem sync_commits (s : SysState) (h : Nat) (t : String) :
    ∃ pre : List Commit,
      (synchronizeShadowRepo s h t).commits = pre ++ s.commits ∧ pre.length ≤ 1 := by
  simp only [synchronizeShadowRepo]
  cases hc : gitCommit s.commits
      (workTree (copyWorkspaceToShadowRepo s.workspace
        (.dir (cleanExceptGit (childrenOf s.shadowDir)))))
      ("Restored to snapshot " ++ String.mk ((toString h).data.take 8) ++
        " | Snapshot @ " ++ t) with
  | error e =>
      refine ⟨[], ?_⟩
      by_cases hn : strIncludes e "nothing to commit" = true
      · simp [hn]
      · simp [hn]
  | ok cs =>
      refine ⟨[{ hash := s.commits.length,
                 message := "Restored to snapshot " ++ String.mk ((toString h).data.take 8) ++
                   " | Snapshot @ " ++ t,
                 tree := workTree (copyWorkspaceToShadowRepo s.workspace
                   (.dir (cleanExceptGit (childrenOf s.shadowDir)))) }], ?_⟩
      have := gitCommit_ok_shape _ _ _ _ hc
      simp [this]

theorem recoverStore_commits (s : SysState) : (recoverStore s).commits = s.commits := by
  simp only [recoverStore]
  cases h : s.commits with
  | nil => simp [h]
  | cons c rest => simp

theorem restore_commits (s : SysState) (h : Nat) (t : String) (confirm : Bool) :
    ∃ pre : List Commit,
      (restoreSnapshot s h t confirm).1.commits = pre ++ s.commits ∧ pre.length ≤ 1 := by
  simp only [restoreSnapshot]
  by_cases hc : confirm = true
  · simp only [hc, if_true]
    cases hf : findCommit s.commits h with
    | none =>
        refine ⟨[], ?_⟩
        simp [recoverStore_commits]
    | some c =>
        have := sync_commits
          { s with workspace := copySnapshotToWorkspace c.tree (cleanWorkspace s.workspace) } h t
        simpa using this
  · simp only [hc]
    exact ⟨[], by simp [Bool.of_not_eq_true hc]⟩

theorem runOp_commits (s : SysState) (op : Op) :
    ∃ pre : List Commit, (runOp s op).commits = pre ++ s.commits ∧ pre.length ≤ 1 := by
  cases op with
  | edit ws => exact ⟨[], by simp [runOp]⟩
  | capture ok prompt t => simpa [runOp] using saveSnapshot_commits s ok prompt t
  | restoreOp h t confirm => simpa [runOp] using restore_commits s h t confirm

theorem runOps_commits (ops : List Op) (s : SysState) :
    ∃ pre : List Commit, (runOps s ops).commits = pre ++ s.commits := by
  induction ops generalizing s with
  | nil => exact ⟨[], by simp [runOps]⟩
  | cons op rest ih =>
      obtain ⟨pre1, h1, _⟩ := runOp_commits s op
      obtain ⟨pre2, h2⟩ := ih (runOp s op)
      refine ⟨pre2 ++ pre1, ?_⟩
      have : runOps s (op :: rest) = runOps (runOp s op) rest := by
        simp [runOps, List.foldl_cons]
      rw [this, h2, h1, List.append_assoc]

/-- C1: along every sequence of edit, capture and restore operations the
snapshot history is append-only: the resulting log extends the starting
log by prepending newer snapshots only (so the ordered snapshot list is
non-decreasing in length and no prior snapshot is altered or removed),
and one restore appends at most one new forward snapshot instead of
rewriting or rebasing the existing history. -/
theorem c1_append_only_history (s : SysState) (ops : List Op) :
    (∃ pre : List Commit, (runOps s ops).commits = pre ++ s.commits) ∧
    s.commits.length ≤ (runOps s ops).commits.length ∧
    ∀ (s2 : SysState) (h : Nat) (t : String) (confirm : Bool),
      ∃ pre : List Commit,
        (restoreSnapshot s2 h t confirm).1.commits = pre ++ s2.commits ∧ pre.length ≤ 1 := by
  obtain ⟨pre, hp⟩ := runOps_commits ops s
  refine ⟨⟨pre, hp⟩, ?_, ?_⟩
  · rw [hp]
    simp
  · intro s2 h t confirm
    exact restore_commits s2 h t confirm

/-- C2: whenever the destination of the workspace-to-store mirror lacks
the .git metadata subtree, copyWorkspaceFiles aborts with the integrity
error and performs no deletion: the returned destination tree is exactly
the input destination tree. -/
theorem c2_missing_git_aborts (ok : Bool) (src dest : Entry)
    (h : lookupE ".git" (childrenOf dest) = none) :
    copyWorkspaceFiles ok src dest =
      (dest, some "Git directory not found in destination. Aborting to prevent data loss.") := by
  simp [copyWorkspaceFiles, h]

theorem c2_missing_git_aborts_witness :
    lookupE ".git" (childrenOf (Entry.dir [("a.txt", Entry.file "x")])) = none ∧
    copyWorkspaceFiles true (Entry.dir [("b.txt", Entry.file "y")])
        (Entry.dir [("a.txt", Entry.file "x")]) =
      (Entry.dir [("a.txt", Entry.file "x")],
       some "Git directory not found in destination. Aborting to prevent data loss.") := by
  refine ⟨by simp [childrenOf, lookupE], ?_⟩
  exact c2_missing_git_aborts true _ _ (by simp [childrenOf, lookupE])

/-- C3: no mirror operation deletes or writes the .git metadata subtree
of the store: after copyWorkspaceFiles (completed or failed), after
copyWorkspaceToShadowRepo, and after the whole restore-time
resynchronization, the entry named .git in the store directory is
exactly the entry that was there before. -/
theorem c3_metadata_never_touched :
    (∀ (ok : Bool) (src dest : Entry),
      lookupE ".git" (childrenOf (copyWorkspaceFiles ok src dest).1) =
        lookupE ".git" (childrenOf dest)) ∧
    (∀ ws sh : Entry,
      lookupE ".git" (childrenOf (copyWorkspaceToShadowRepo ws sh)) =
        lookupE ".git" (childrenOf sh)) ∧
    (∀ (s : SysState) (h : Nat) (t : String),
      lookupE ".git" (childrenOf (synchronizeShadowRepo s h t).shadowDir) =
        lookupE ".git" (childrenOf s.shadowDir)) := by
  have hmain : ∀ ws sh : Entry,
      lookupE ".git" (childrenOf (copyWorkspaceToShadowRepo ws sh)) =
        lookupE ".git" (childrenOf sh) := by
    intro ws sh
    simp only [copyWorkspaceToShadowRepo, childrenOf]
    exact copyTopSkipGit_keeps_git _ _
  refine ⟨?_, hmain, ?_⟩
  · intro ok src dest
    simp only [copyWorkspaceFiles]
    cases hl : lookupE ".git" (childrenOf dest) with
    | none => simp [hl]
    | some g =>
        by_cases hok : ok = true
        · have hcd : childrenOf (Entry.dir (copyChildren (childrenOf src)
              (cleanExceptGit (childrenOf dest)))) =
              copyChildren (childrenOf src) (cleanExceptGit (childrenOf dest)) := rfl
          simp only [hok, if_true, hcd]
          rw [copyChildren_keeps_git, lookupE_cleanExceptGit, hl]
        · simp only [Bool.of_not_eq_true hok, Bool.false_eq_true, if_false]
          simp [hl]
  · intro s h t
    simp only [synchronizeShadowRepo]
    cases hc : gitCommit s.commits
        (workTree (copyWorkspaceToShadowRepo s.workspace
          (.dir (cleanExceptGit (childrenOf s.shadowDir)))))
        ("Restored to snapshot " ++ String.mk ((toString h).data.take 8) ++
          " | Snapshot @ " ++ t) with
    | ok cs =>
        simp only []
        rw [hmain]
        simp only [childrenOf]
        exact lookupE_cleanExceptGit _
    | error e =>
        by_cases hn : strIncludes e "nothing to commit" = true
        · simp only [hn, if_true]
          rw [hmain]
          simp only [childrenOf]
          exact lookupE_cleanExceptGit _
        · simp only [hn, ite_self]
          rw [hmain]
          simp only [childrenOf]
          exact lookupE_cleanExceptGit _

/-- C9 counterexample: the supplied prompt " " is non-empty, yet the
recorded message is the bare timestamp form, not
" | Snapshot @ timestamp" as the claim would require, because the
source tests and uses the trimmed prompt. -/
theorem c9_counterexample :
    ¬ " " = "" ∧
    buildCommitMessage " " "2024-01-01T00:00:00.000Z" = "Snapshot @ 2024-01-01T00:00:00.000Z" ∧
    ¬ buildCommitMessage " " "2024-01-01T00:00:00.000Z" =
        " " ++ " | Snapshot @ " ++ "2024-01-01T00:00:00.000Z" := by
  refine ⟨by decide, ?_, ?_⟩ <;> decide

/-- C9 (amended): the recorded snapshot message is built from the trimmed
prompt: when the trimmed prompt is non-empty the message is
"trimmedPrompt | Snapshot @ timestamp", otherwise it is
"Snapshot @ timestamp"; and a successful commit records exactly that
message in the newest snapshot. -/
theorem c9_message_format (prompt t : String) :
    (¬ jsTrim prompt = "" →
      buildCommitMessage prompt t = jsTrim prompt ++ " | Snapshot @ " ++ t) ∧
    (jsTrim prompt = "" → buildCommitMessage prompt t = "Snapshot @ " ++ t) ∧
    (∀ (commits : List Commit) (tree : Entry) (msg : String) (cs : List Commit),
      gitCommit commits tree msg = .ok cs →
        cs.head?.map (fun c => c.message) = some msg) := by
  refine ⟨?_, ?_, ?_⟩
  · intro h
    have hp : ¬ prompt = "" := by
      intro hp
      rw [hp] at h
      exact h rfl
    have hcond : (prompt != "" && jsTrim prompt != "") = true := by
      simp [bne_iff_ne, hp, h]
    simp [buildCommitMessage, hcond]
  · intro h
    have hcond : (prompt != "" && jsTrim prompt != "") = false := by
      simp [h]
    simp [buildCommitMessage, hcond]
  · intro commits tree msg cs hc
    rw [gitCommit_ok_shape commits tree msg cs hc]
    simp

theorem c9_message_format_witness :
    buildCommitMessage "  fix login " "2024-05-05T10:00:00.000Z" =
      jsTrim "  fix login " ++ " | Snapshot @ " ++ "2024-05-05T10:00:00.000Z" :=
  (c9_message_format "  fix login " "2024-05-05T10:00:00.000Z").1 (by decide)

/-- C4 (amended): when the commit step of a capture finds nothing to
commit (a second capture with no workspace change in between), no new
snapshot is appended to the history, but the capture flow does surface
it as a failure: the user sees the generic
"Failed to save snapshot: ..." message carrying the backend text, not a
"no changes since last snapshot" report (only the restore-time
resynchronization treats nothing-to-commit as benign). -/
theorem c4_noop_capture (s : SysState) (ok : Bool) (prompt t : String)
    (c : Commit) (rest : List Commit)
    (hcs : s.commits = c :: rest)
    (hcopy : (copyWorkspaceFiles ok s.workspace s.shadowDir).2 = none)
    (htree : entryBeq (workTree (copyWorkspaceFiles ok s.workspace s.shadowDir).1) c.tree = true) :
    (saveSnapshot s ok prompt t).1.commits = s.commits ∧
    (saveSnapshot s ok prompt t).2 =
      "Failed to save snapshot: nothing to commit, working tree clean" := by
  have hg : gitCommit s.commits
      (workTree (copyWorkspaceFiles ok s.workspace s.shadowDir).1)
      (buildCommitMessage prompt t) = .error "nothing to commit, working tree clean" := by
    rw [hcs]
    simp [gitCommit, htree]
  have hrep : reportSaveError "nothing to commit, working tree clean" =
      "Failed to save snapshot: nothing to commit, working tree clean" := by
    simp only [reportSaveError]
    rw [if_neg (by decide), if_neg (by decide)]
    decide
  simp only [saveSnapshot, hcopy, hg, hrep]
  refine ⟨?_, ?_⟩ <;> first | rfl | trivial

theorem c4_noop_capture_witness :
    (saveSnapshot noChangeState true "" "T1").1.commits = noChangeState.commits ∧
    (saveSnapshot noChangeState true "" "T1").2 =
      "Failed to save snapshot: nothing to commit, working tree clean" :=
  c4_noop_capture noChangeState true "" "T1"
    { hash := 0, message := "Snapshot @ T0", tree := .dir [("a.txt", .file "1")] } []
    (by simp [noChangeState])
    (by simp [noChangeState, copyWorkspaceFiles, childrenOf, lookupE, cleanExceptGit,
      copyChildren, isIgnoredFile, isIgnoredDir, strIncludes, hasSub, leadsWith,
      ignorePatterns, setKey, destChildren])
    (by simp [noChangeState, copyWorkspaceFiles, childrenOf, lookupE, cleanExceptGit,
      copyChildren, isIgnoredFile, isIgnoredDir, strIncludes, hasSub, leadsWith,
      ignorePatterns, setKey, destChildren, workTree, entryBeq])

/-- C4 counterexample: a second capture with no workspace change is
surfaced as a failure message, not reported as no changes since last
snapshot, refuting the reporting half of the claim (the history is
indeed not extended). -/
theorem c4_counterexample :
    (saveSnapshot noChangeState true "" "T1").2 =
      "Failed to save snapshot: nothing to commit, working tree clean" ∧
    (saveSnapshot noChangeState true "" "T1").1.commits = noChangeState.commits ∧
    ¬ (saveSnapshot noChangeState true "" "T1").2 = "No changes since last snapshot" := by
  have heval : (saveSnapshot noChangeState true "" "T1").2 =
      "Failed to save snapshot: nothing to commit, working tree clean" := by
    simp [noChangeState, saveSnapshot, copyWorkspaceFiles, childrenOf, lookupE,
      cleanExceptGit, copyChildren, isIgnoredFile, isIgnoredDir, strIncludes, hasSub,
      leadsWith, ignorePatterns, setKey, destChildren, workTree, gitCommit, entryBeq,
      buildCommitMessage, jsTrim, reportSaveError, List.filter]
  refine ⟨heval, ?_, ?_⟩
  · simp [noChangeState, saveSnapshot, copyWorkspaceFiles, childrenOf, lookupE,
      cleanExceptGit, copyChildren, isIgnoredFile, isIgnoredDir, strIncludes, hasSub,
      leadsWith, ignorePatterns, setKey, destChildren, workTree, gitCommit, entryBeq,
      buildCommitMessage, jsTrim, reportSaveError, List.filter]
  · rw [heval]
    decide

theorem buildCommits_length (diffRes : String → String → Except String DiffSummary)
    (entries : List LogEntry) :
    (buildCommits diffRes entries).length = entries.length := by
  induction entries with
  | nil => rfl
  | cons c rest ih => simp [buildCommits, ih]

/-- C5: the change analyzer classifies each diff row as added exactly
when it has insertions and no deletions, deleted exactly when it has
deletions and no insertions, and modified otherwise; for a backend
summary whose aggregate totals are the sums of the per-file counts (the
backend contract) the reported totals are those sums; and on the
concrete A(10/0), B(0/5), C(3/2) summary the analyzer reports 3 files,
13 added lines, 7 removed lines with statuses added, deleted, modified. -/
theorem c5_change_classification (ds : DiffSummary)
    (hins : ds.insertions = (ds.files.map (fun f => f.insertions.getD 0)).sum)
    (hdel : ds.deletions = (ds.files.map (fun f => f.deletions.getD 0)).sum) :
    (computeChangeStats ds).1 = ds.files.length ∧
    (computeChangeStats ds).2.1 = (ds.files.map (fun f => f.insertions.getD 0)).sum ∧
    (computeChangeStats ds).2.2.1 = (ds.files.map (fun f => f.deletions.getD 0)).sum ∧
    (∀ f : DiffFile,
      ((classifyFile f).status = .added ↔
        f.insertions.getD 0 > 0 ∧ f.deletions.getD 0 = 0) ∧
      ((classifyFile f).status = .deleted ↔
        f.insertions.getD 0 = 0 ∧ f.deletions.getD 0 > 0) ∧
      ((classifyFile f).status = .modified ↔
        ¬(f.insertions.getD 0 > 0 ∧ f.deletions.getD 0 = 0) ∧
        ¬(f.insertions.getD 0 = 0 ∧ f.deletions.getD 0 > 0))) ∧
    computeChangeStats abcDiffSummary =
      (3, 13, 7,
       [{ filename := "A", linesAdded := 10, linesRemoved := 0, status := .added },
        { filename := "B", linesAdded := 0, linesRemoved := 5, status := .deleted },
        { filename := "C", linesAdded := 3, linesRemoved := 2, status := .modified }]) := by
  refine ⟨rfl, by simpa [computeChangeStats] using hins,
    by simpa [computeChangeStats] using hdel, ?_, by decide⟩
  intro f
  rcases Nat.eq_zero_or_pos (f.insertions.getD 0) with hi | hi <;>
    rcases Nat.eq_zero_or_pos (f.deletions.getD 0) with hd | hd
  · simp [classifyFile, hi, hd]
  · have hd2 : ¬ f.deletions.getD 0 = 0 := Nat.pos_iff_ne_zero.mp hd
    simp [classifyFile, hi, hd, hd2]
  · have hi2 : ¬ f.insertions.getD 0 = 0 := Nat.pos_iff_ne_zero.mp hi
    simp [classifyFile, hi, hd, hi2]
  · have hi2 : ¬ f.insertions.getD 0 = 0 := Nat.pos_iff_ne_zero.mp hi
    have hd2 : ¬ f.deletions.getD 0 = 0 := Nat.pos_iff_ne_zero.mp hd
    simp [classifyFile, hi, hd, hi2, hd2]

theorem c5_change_classification_witness :
    computeChangeStats abcDiffSummary =
      (3, 13, 7,
       [{ filename := "A", linesAdded := 10, linesRemoved := 0, status := .added },
        { filename := "B", linesAdded := 0, linesRemoved := 5, status := .deleted },
        { filename := "C", linesAdded := 3, linesRemoved := 2, status := .modified }]) :=
  (c5_change_classification abcDiffSummary (by decide) (by decide)).2.2.2.2

/-- C10: retrieving the timeline is total over every backend outcome: an
unhealthy repository, a failed log call and an empty log each yield the
empty list, a successful log yields one row per commit, and a per-commit
diffSummary failure keeps that commit in the timeline with
filesChanged, linesAdded and linesRemoved all zero. -/
theorem c10_timeline_total :
    (∀ (logRes : Except String (List LogEntry))
        (diffRes : String → String → Except String DiffSummary),
      getCommitHistory false logRes diffRes = []) ∧
    (∀ (diffRes : String → String → Except String DiffSummary) (m : String),
      getCommitHistory true (.error m) diffRes = []) ∧
    (∀ diffRes : String → String → Except String DiffSummary,
      getCommitHistory true (.ok []) diffRes = []) ∧
    (∀ (entries : List LogEntry) (diffRes : String → String → Except String DiffSummary),
      (getCommitHistory true (.ok entries) diffRes).length = entries.length) ∧
    (∀ (cur prev : LogEntry) (rest : List LogEntry)
        (diffRes : String → String → Except String DiffSummary) (e : String),
      diffRes prev.hash cur.hash = .error e →
        (buildCommits diffRes (cur :: prev :: rest)).head? =
          some (buildCommitInfo diffRes cur (some prev)) ∧
        (buildCommitInfo diffRes cur (some prev)).hash = cur.hash ∧
        (buildCommitInfo diffRes cur (some prev)).filesChanged = 0 ∧
        (buildCommitInfo diffRes cur (some prev)).linesAdded = 0 ∧
        (buildCommitInfo diffRes cur (some prev)).linesRemoved = 0) := by
  refine ⟨fun _ _ => rfl, fun _ _ => rfl, fun _ => rfl, ?_, ?_⟩
  · intro entries diffRes
    cases entries with
    | nil => rfl
    | cons c rest =>
        simp only [getCommitHistory, if_true]
        rw [if_neg (by simp)]
        exact buildCommits_length _ _
  · intro cur prev rest diffRes e herr
    refine ⟨by simp [buildCommits], rfl, ?_, ?_, ?_⟩ <;>
      simp [buildCommitInfo, commitStats, herr]

theorem c10_timeline_total_witness :
    getCommitHistory false (.ok [logNewest]) alwaysFailDiff = [] ∧
    (getCommitHistory true (.ok [logNewest, logOldest]) alwaysFailDiff).length = 2 ∧
    (buildCommits alwaysFailDiff [logNewest, logOldest]).head? =
      some (buildCommitInfo alwaysFailDiff logNewest (some logOldest)) ∧
    (buildCommitInfo alwaysFailDiff logNewest (some logOldest)).filesChanged = 0 ∧
    (buildCommitInfo alwaysFailDiff logNewest (some logOldest)).linesAdded = 0 := by
  have h := c10_timeline_total
  have h5 := h.2.2.2.2 logNewest logOldest [] alwaysFailDiff "diff failed" rfl
  exact ⟨h.1 _ _, h.2.2.2.1 [logNewest, logOldest] alwaysFailDiff, h5.1, h5.2.2.1, h5.2.2.2.1⟩

theorem sync_workspace (s : SysState) (h : Nat) (t : String) :
    (synchronizeShadowRepo s h t).workspace = s.workspace := by
  simp only [synchronizeShadowRepo]
  cases gitCommit s.commits
      (workTree (copyWorkspaceToShadowRepo s.workspace
        (.dir (cleanExceptGit (childrenOf s.shadowDir)))))
      ("Restored to snapshot " ++ String.mk ((toString h).data.take 8) ++
        " | Snapshot @ " ++ t) with
  | ok cs => rfl
  | error e => simp [ite_self]

theorem lookup_filter_ignored (n : String) (es : List (String × Entry))
    (h : shouldIgnore n = true) :
    lookupE n (es.filter (fun p => shouldIgnore p.1)) = lookupE n es := by
  induction es with
  | nil => rfl
  | cons p rest ih =>
    obtain ⟨k, e⟩ := p
    by_cases hk : k = n
    · subst hk
      simp [List.filter_cons, h, lookupE]
    · by_cases hs : shouldIgnore k = true
      · simp only [List.filter_cons, hs, if_true, lookupE]
        rw [if_neg (by simpa using hk), if_neg (by simpa using hk)]
        exact ih
      · simp only [List.filter_cons]
        rw [show (shouldIgnore k) = false from by simpa using hs]
        simp only [Bool.false_eq_true, if_false]
        rw [ih]
        simp only [lookupE]
        rw [if_neg (by simpa using hk)]

/-- C7 (amended): after any capture mirror that completes, the mirrored
store tree (outside the .git metadata) contains no file whose path has
an exactly-ignored directory segment or a substring-ignored basename;
the restore-time clean, however, deliberately preserves (rather than
deletes) the ignored-name entries of the workspace, so ignored files
already present in the workspace survive a restore. -/
theorem c7_ignore_invariant :
    (∀ (ok : Bool) (src dest res : Entry),
      copyWorkspaceFiles ok src dest = (res, none) →
      ∀ (segs : List String) (fname : String),
        (segs.any isIgnoredDir || isIgnoredFile fname) = true →
        hasFile (stripGit (childrenOf res)) segs fname = false) ∧
    (∀ (ws : Entry) (n : String), shouldIgnore n = true →
      lookupE n (childrenOf (cleanWorkspace ws)) = lookupE n (childrenOf ws)) := by
  constructor
  · intro ok src dest res hres segs fname hb
    simp only [copyWorkspaceFiles] at hres
    cases hl : lookupE ".git" (childrenOf dest) with
    | none =>
        rw [hl] at hres
        simp at hres
    | some g =>
        rw [hl] at hres
        by_cases hok : ok = true
        · rw [hok, if_pos rfl] at hres
          have hr : res = Entry.dir (copyChildren (childrenOf src)
              (cleanExceptGit (childrenOf dest))) := by
            have := congrArg Prod.fst hres
            simpa using this.symm
          subst hr
          have hgood : goodChildren (stripGit (copyChildren (childrenOf src)
              (cleanExceptGit (childrenOf dest)))) = true := by
            apply mirrorGoodTop
            rw [stripGit_cleanExceptGit]
            simp [goodChildren]
          exact good_no_hasFile segs _ fname hgood hb
        · rw [Bool.of_not_eq_true hok] at hres
          simp at hres
  · intro ws n h
    simp only [cleanWorkspace, childrenOf]
    exact lookup_filter_ignored n (childrenOf ws) h

theorem c7_ignore_invariant_witness :
    hasFile (stripGit (childrenOf (Entry.dir [(".git", Entry.dir [("HEAD", Entry.file "r")]),
        ("src", Entry.dir [("main.ts", Entry.file "y")])])))
      ["node_modules"] "m.js" = false ∧
    lookupE ".env" (childrenOf (cleanWorkspace (Entry.dir [(".env", Entry.file "S")]))) =
      lookupE ".env" (childrenOf (Entry.dir [(".env", Entry.file "S")])) := by
  constructor
  · refine c7_ignore_invariant.1 true
      (Entry.dir [("node_modules", Entry.dir [("m.js", Entry.file "x")]),
        ("a.env", Entry.file "k"), ("src", Entry.dir [("main.ts", Entry.file "y")])])
      (Entry.dir [(".git", Entry.dir [("HEAD", Entry.file "r")])]) _ ?_
      ["node_modules"] "m.js" (by decide)
    simp [copyWorkspaceFiles, childrenOf, lookupE, cleanExceptGit, copyChildren,
      isIgnoredFile, isIgnoredDir, strIncludes, hasSub, leadsWith, ignorePatterns,
      setKey, destChildren]
  · exact c7_ignore_invariant.2 (Entry.dir [(".env", Entry.file "S")]) ".env" (by decide)

/-- C7 counterexample: the workspace holds the ignored file .env before a
restore, and after the restore completes the file is still present in
the workspace, refuting the claim that ignored files are absent from the
workspace after any restore. -/
theorem c7_counterexample :
    lookupE ".env" (childrenOf (restoreSnapshot envFileState 0 "T1" true).1.workspace) =
      some (Entry.file "SECRET") := by
  have hf : findCommit envFileState.commits 0 =
      some { hash := 0, message := "Snapshot @ T0",
             tree := Entry.dir [("a.txt", Entry.file "1")] } := by
    simp [envFileState, findCommit]
  have hws : (restoreSnapshot envFileState 0 "T1" true).1.workspace =
      copySnapshotToWorkspace (Entry.dir [("a.txt", Entry.file "1")])
        (cleanWorkspace envFileState.workspace) := by
    simp only [restoreSnapshot, hf, eq_self_iff_true, if_true]
    rw [sync_workspace]
  rw [hws]
  simp [envFileState, cleanWorkspace, childrenOf, shouldIgnore, strIncludes, hasSub,
    leadsWith, ignorePatterns, copySnapshotToWorkspace, copySnapTop, copySnapChildren,
    setKey, lookupE, destChildren, List.filter]

theorem good_keys_not_git (cs : List (String × Entry)) (m : String)
    (hg : goodChildren cs = true) (hm : keyMemB m cs = true) : ¬ m = ".git" := by
  induction cs with
  | nil => simp [keyMemB] at hm
  | cons p rest ih =>
    obtain ⟨k, e⟩ := p
    simp only [keyMemB, Bool.or_eq_true] at hm
    cases hm with
    | inl hk =>
        have hk2 : k = m := by simpa using hk
        subst hk2
        intro hgit
        subst hgit
        cases e with
        | file c =>
            simp only [goodChildren, Bool.and_eq_true] at hg
            rw [isIgnoredFile_git] at hg
            simpa using hg.1
        | dir ds =>
            simp only [goodChildren, Bool.and_eq_true] at hg
            rw [isIgnoredDir_git] at hg
            simpa using hg.1.1
    | inr hr =>
        cases e with
        | file c =>
            simp only [goodChildren, Bool.and_eq_true] at hg
            exact ih hg.2 hr
        | dir ds =>
            simp only [goodChildren, Bool.and_eq_true] at hg
            exact ih hg.2 hr

theorem gitCommit_error_beq (c0 : Commit) (rest : List Commit) (tree : Entry)
    (msg e : String) (h : gitCommit (c0 :: rest) tree msg = .error e) :
    entryBeq tree c0.tree = true := by
  simp only [gitCommit] at h
  by_cases hb : entryBeq tree c0.tree = true
  · exact hb
  · simp [hb] at h

/-- C6 (amended): after restore(S) the store tip matches S — diffSummary
between the new head and S reports zero files changed — provided the
pre-restore workspace has no ignored-name leftovers (its clean empties
it) and the tree of S is a mirror-filtered real directory listing (no
ignored names, unique names), as every capture-created snapshot is.
Without the leftover proviso the property fails, see the
counterexample. -/
theorem c6_restore_round_trip (s : SysState) (h : Nat) (t : String) (c : Commit)
    (cts : List (String × Entry))
    (hfind : findCommit s.commits h = some c)
    (htree : c.tree = Entry.dir cts)
    (hgood : goodChildren cts = true)
    (huniq : uniqChildren cts = true)
    (hclean : cleanWorkspace s.workspace = Entry.dir []) :
    diffSummaryZero (headTree (restoreSnapshot s h t true).1) c.tree = true := by
  have hws2 : copySnapshotToWorkspace c.tree (cleanWorkspace s.workspace) = Entry.dir cts := by
    rw [htree, hclean]
    simp only [copySnapshotToWorkspace, childrenOf]
    rw [snapTopId cts [] hgood huniq (fun m _ => rfl)]
    simp
  have hres : (restoreSnapshot s h t true).1 =
      synchronizeShadowRepo { s with workspace := Entry.dir cts } h t := by
    simp only [restoreSnapshot, hfind, eq_self_iff_true, if_true]
    rw [hws2]
  have hf : ∀ m, keyMemB m cts = true →
      lookupE m (cleanExceptGit (childrenOf s.shadowDir)) = none := by
    intro m hm
    exact stripGit_empty_lookup m _ (stripGit_cleanExceptGit _) (good_keys_not_git cts m hgood hm)
  have hwt : workTree (copyWorkspaceToShadowRepo (Entry.dir cts)
      (Entry.dir (cleanExceptGit (childrenOf s.shadowDir)))) = Entry.dir cts := by
    show Entry.dir (stripGit (copyTopSkipGit cts (cleanExceptGit (childrenOf s.shadowDir)))) =
      Entry.dir cts
    rw [topSkipGitId cts _ hgood huniq hf, stripGit_cleanExceptGit]
    simp
  rw [hres]
  simp only [synchronizeShadowRepo]
  have hcs : s.commits ≠ [] := by
    intro hnil
    rw [hnil] at hfind
    simp [findCommit] at hfind
  cases hcommits : s.commits with
  | nil => exact absurd hcommits hcs
  | cons c0 rest =>
      simp only [hwt]
      cases hc : gitCommit (c0 :: rest) (Entry.dir cts)
          ("Restored to snapshot " ++ String.mk ((toString h).data.take 8) ++
            " | Snapshot @ " ++ t) with
      | ok cs =>
          have hshape := gitCommit_ok_shape _ _ _ _ hc
          simp only [headTree, hshape]
          rw [htree]
          simp [diffSummaryZero, entryBeq_refl]
      | error e =>
          have hbeq := gitCommit_error_beq c0 rest _ _ _ hc
          have hceq : Entry.dir cts = c0.tree := entryBeq_eq _ _ hbeq
          simp only [ite_self, headTree, hcommits]
          rw [htree, ← hceq]
          simp [diffSummaryZero, entryBeq_refl]

theorem c6_restore_round_trip_witness :
    diffSummaryZero (headTree (restoreSnapshot cleanRestoreState 0 "T1" true).1)
      (Entry.dir [("a.txt", Entry.file "1")]) = true := by
  have := c6_restore_round_trip cleanRestoreState 0 "T1"
    { hash := 0, message := "Snapshot @ T0", tree := Entry.dir [("a.txt", Entry.file "1")] }
    [("a.txt", Entry.file "1")]
    (by simp [cleanRestoreState, findCommit])
    rfl
    (by simp [goodChildren, isIgnoredFile, strIncludes, hasSub, leadsWith, ignorePatterns])
    (by simp [uniqChildren, keyMemB])
    (by simp [cleanRestoreState, cleanWorkspace, childrenOf, shouldIgnore, strIncludes,
      hasSub, leadsWith, ignorePatterns, List.filter])
  exact this

/-- C6 counterexample: a restore from a workspace holding the
ignored-name leftover directory my_build (kept by the clean, mirrored by
the resynchronization) produces a store tip that differs from the
restored snapshot: the diff between the new head and the snapshot is not
empty. -/
theorem c6_counterexample :
    diffSummaryZero (headTree (restoreSnapshot leftoverState 0 "T1" true).1)
      (Entry.dir [("a.txt", Entry.file "1")]) = false := by
  have hf : findCommit leftoverState.commits 0 =
      some { hash := 0, message := "Snapshot @ T0",
             tree := Entry.dir [("a.txt", Entry.file "1")] } := by
    simp [leftoverState, findCommit]
  simp only [restoreSnapshot, hf, eq_self_iff_true, if_true]
  simp only [leftoverState, synchronizeShadowRepo, cleanWorkspace, childrenOf]
  simp [copySnapshotToWorkspace, copySnapTop, copySnapChildren, setKey, lookupE,
    destChildren, childrenOf, shouldIgnore, strIncludes, hasSub, leadsWith,
    ignorePatterns, List.filter, cleanExceptGit, copyWorkspaceToShadowRepo,
    copyTopSkipGit, copyChildren, isIgnoredDir, isIgnoredFile, workTree, stripGit,
    gitCommit, entryBeq, headTree, diffSummaryZero]

theorem b64_take_mul3 (k : Nat) : ∀ (l r1 r2 : List Nat), l.length = 3 * k →
    (b64Encode (l ++ r1)).take (4 * k) = (b64Encode (l ++ r2)).take (4 * k) := by
  induction k with
  | zero =>
      intro l r1 r2 hl
      simp at hl
      simp [hl]
  | succ k ih =>
      intro l r1 r2 hl
      match l, hl with
      | b1 :: b2 :: b3 :: l', hl =>
        have hl' : l'.length = 3 * k := by
          simp only [List.length_cons] at hl
          omega
        have e1 : b64Encode ((b1 :: b2 :: b3 :: l') ++ r1) =
            b64Char (b1 / 4) :: b64Char (b1 % 4 * 16 + b2 / 16) ::
            b64Char (b2 % 16 * 4 + b3 / 64) :: b64Char (b3 % 64) ::
            b64Encode (l' ++ r1) := rfl
        have e2 : b64Encode ((b1 :: b2 :: b3 :: l') ++ r2) =
            b64Char (b1 / 4) :: b64Char (b1 % 4 * 16 + b2 / 16) ::
            b64Char (b2 % 16 * 4 + b3 / 64) :: b64Char (b3 % 64) ::
            b64Encode (l' ++ r2) := rfl
        rw [e1, e2, show 4 * (k + 1) = 4 * k + 1 + 1 + 1 + 1 from by ring]
        simp only [List.take_succ_cons]
        rw [ih l' r1 r2 hl']

/-- C8 (amended): the project identity is a pure function of the absolute
workspace path (equal paths give equal identities across restarts), but
distinct paths do not always give distinct identities: the identity
depends only on the basename and on the first 12 bytes of the path
(base64 truncated to 16 characters), so any two paths of length at
least 12 bytes that agree on those collide.  See the counterexample for
two distinct colliding paths. -/
theorem c8_project_identity :
    (∀ p1 p2 : String, p1 = p2 → shadowRepoDirName p1 = shadowRepoDirName p2) ∧
    (∀ p1 p2 : String,
      12 ≤ p1.data.length → 12 ≤ p2.data.length →
      p1.data.take 12 = p2.data.take 12 →
      pathBasename p1 = pathBasename p2 →
      shadowRepoDirName p1 = shadowRepoDirName p2) := by
  constructor
  · intro p1 p2 h
    rw [h]
  · intro p1 p2 h1 h2 htake hbase
    have hhash : workspaceHash p1 = workspaceHash p2 := by
      simp only [workspaceHash]
      have hsplit1 : p1.data.map Char.toNat =
          (p1.data.take 12).map Char.toNat ++ (p1.data.drop 12).map Char.toNat := by
        rw [← List.map_append, List.take_append_drop]
      have hsplit2 : p2.data.map Char.toNat =
          (p2.data.take 12).map Char.toNat ++ (p2.data.drop 12).map Char.toNat := by
        rw [← List.map_append, List.take_append_drop]
      have hlen : ((p1.data.take 12).map Char.toNat).length = 3 * 4 := by
        rw [List.length_map, List.length_take]
        omega
      have hpre : (b64Encode (p1.data.map Char.toNat)).take 16 =
          (b64Encode (p2.data.map Char.toNat)).take 16 := by
        rw [hsplit1, hsplit2, htake]
        exact b64_take_mul3 4 ((p2.data.take 12).map Char.toNat) _ _ (by rw [← htake]; exact hlen)
      congr 1
      rw [← List.map_take, ← List.map_take, hpre]
    simp only [shadowRepoDirName, hbase, hhash]

theorem c8_project_identity_witness :
    shadowRepoDirName "/home/user/aa/x" = shadowRepoDirName "/home/user/ab/x" :=
  c8_project_identity.2 "/home/user/aa/x" "/home/user/ab/x"
    (by decide) (by decide) (by decide) (by decide)

/-- C8 counterexample: two distinct absolute paths with the same
basename and the same first 12 bytes receive the same identity, so the
store locations of two different projects collide. -/
theorem c8_counterexample :
    shadowRepoDirName "/home/user/aa/x" = shadowRepoDirName "/home/user/ab/x" ∧
    ¬ ("/home/user/aa/x" : String) = "/home/user/ab/x" := by
  constructor
  · decide
  · decide
